import Mathlib

/-!
Verification of the narrative engine of the AI-Horror-Adv repository.

The definitions below are shallow embeddings of `src/game-engine.ts` and
`src/gemini-client.ts`: pure TypeScript logic becomes Lean functions, the
mutable `GameEngine` fields become an explicit `EngineState` record, and the
asynchronous model call together with `JSON.parse` (whose behavior is outside
the program text) are passed in as explicit inputs.  Reference-aliasing
behavior (`getGameState`, `loadGame`) is modelled separately with a small
explicit heap.
-/

/-! ### Response extraction (game-engine.ts lines 91-96 and 258-266)

`startGame` and `makeChoice` post-process the raw model output with

  `response.replace(/<thinking>[\s\S]*?<\/thinking>/g, '')`

followed by `withoutResult.match(/\{[\s\S]*\}/)`.  `removeThinking` embeds
the global non-greedy replacement, `jsonMatch` embeds the greedy brace
match (the regex scanner tries each start position in turn; at a `{` the
greedy `[\s\S]*` backtracks to the last `}` of the remainder). -/

def openTag : List Char := "<thinking>".data

def closeTag : List Char := "</thinking>".data

theorem isPrefixOf_iff (l1 l2 : List Char) : l1.isPrefixOf l2 = true ↔ l1 <+: l2 :=
  List.isPrefixOf_iff_prefix

/-- Index of the first occurrence of `pat` as a contiguous substring of `s`. -/
def substrIdx (pat : List Char) : List Char → Option Nat
  | [] => if pat.isPrefixOf [] then some 0 else none
  | a :: rest =>
    if pat.isPrefixOf (a :: rest) then some 0
    else (substrIdx pat rest).map (· + 1)

/-- Index of the last occurrence of the character `c` in `s`. -/
def lastIdxOf (c : Char) : List Char → Option Nat
  | [] => none
  | a :: rest =>
    match lastIdxOf c rest with
    | some j => some (j + 1)
    | none => if a = c then some 0 else none

theorem substrIdx_length_le (pat : List Char) :
    ∀ (s : List Char) (i : Nat), substrIdx pat s = some i → i + pat.length ≤ s.length := by
  intro s
  induction s with
  | nil =>
    intro i h
    simp only [substrIdx] at h
    split at h
    · rename_i hp
      cases h
      have := List.IsPrefix.length_le ((isPrefixOf_iff _ _).mp hp)
      simpa using this
    · cases h
  | cons a rest ih =>
    intro i h
    simp only [substrIdx] at h
    split at h
    · rename_i hp
      cases h
      have := List.IsPrefix.length_le ((isPrefixOf_iff _ _).mp hp)
      simpa using this
    · rename_i hp
      cases hrec : substrIdx pat rest with
      | none => rw [hrec] at h; cases h
      | some i0 =>
        rw [hrec] at h
        simp only [Option.map_some'] at h
        cases h
        have := ih i0 hrec
        have hlen : (a :: rest).length = rest.length + 1 := rfl
        omega

/-- Global replacement of `/<thinking>[\s\S]*?<\/thinking>/g` by the empty
string: the scanner finds the first open tag, removes up to the first close
tag that follows it (lazy match), and continues after the removed span; an
open tag with no close tag after it never matches, so the text is returned
unchanged. -/
def removeThinking (s : List Char) : List Char :=
  match h1 : substrIdx openTag s with
  | none => s
  | some i =>
    match h2 : substrIdx closeTag (s.drop (i + 10)) with
    | none => s
    | some j => s.take i ++ removeThinking (s.drop (i + 10 + j + 11))
termination_by s.length
decreasing_by
  have hb1 := substrIdx_length_le openTag s i h1
  have hb2 := substrIdx_length_le closeTag (s.drop (i + 10)) j h2
  have hlo : openTag.length = 10 := rfl
  have hlc : closeTag.length = 11 := rfl
  rw [hlo] at hb1
  rw [hlc, List.length_drop] at hb2
  simp only [List.length_drop]
  omega

/-- The match of `/\{[\s\S]*\}/`: the scanner advances to the first position
holding `{`; from there the greedy filler backtracks to the last `}` of the
remaining text; when no `}` follows, the scan continues (and necessarily
fails, as no later position can close either). -/
def jsonMatch : List Char → Option (List Char)
  | [] => none
  | a :: rest =>
    if a = '{' then
      match lastIdxOf '}' rest with
      | some j => some (a :: rest.take (j + 1))
      | none => jsonMatch rest
    else jsonMatch rest

/-- Full extraction pipeline applied to raw model output (tag removal, then
brace match); `none` corresponds to the thrown
`Response does not contain valid JSON`. -/
def extractCandidate (s : List Char) : Option (List Char) :=
  jsonMatch (removeThinking s)

def runExtract (raw : String) : Option String :=
  (extractCandidate raw.data).map (fun l => String.mk l)

/-! ### Spec-side description of the brace carving

Modelled from the spec: "Scan the remaining text for the first `{` through
the last `}` (greedy bracket match spanning the whole remainder) and treat
that substring as the candidate JSON document", extraction failing when no
such brace span exists.  Stated with explicit first/last indices, to be
compared against the scanner `jsonMatch` embedded from the source. -/

def firstIdxOf (c : Char) : List Char → Option Nat
  | [] => none
  | a :: rest => if a = c then some 0 else (firstIdxOf c rest).map (· + 1)

def firstBraceIdx (s : List Char) : Option Nat :=
  firstIdxOf '{' s

def lastCloseIdx (s : List Char) : Option Nat :=
  lastIdxOf '}' s

def braceSpanSpec (s : List Char) : Option (List Char) :=
  match firstBraceIdx s, lastCloseIdx s with
  | some i, some j => if i ≤ j then some ((s.drop i).take (j - i + 1)) else none
  | _, _ => none

theorem lastIdxOf_eq_none_iff (c : Char) (s : List Char) :
    lastIdxOf c s = none ↔ c ∉ s := by
  induction s with
  | nil => simp [lastIdxOf]
  | cons a rest ih =>
    simp only [lastIdxOf, List.mem_cons]
    cases h : lastIdxOf c rest with
    | some j =>
      constructor
      · intro hc; cases hc
      · intro hc
        exfalso
        apply hc
        right
        by_contra hn
        rw [ih.mpr hn] at h
        cases h
    | none =>
      have hrest : c ∉ rest := ih.mp h
      by_cases hac : a = c
      · simp [hac, hrest]
      · have hca : c ≠ a := fun hca => hac hca.symm
        simp [hac, hrest, hca]

theorem jsonMatch_eq_none_of_no_close (s : List Char) (h : '}' ∉ s) :
    jsonMatch s = none := by
  induction s with
  | nil => rfl
  | cons a rest ih =>
    have hrest : '}' ∉ rest := fun hm => h (List.mem_cons_of_mem a hm)
    simp only [jsonMatch]
    by_cases ha : a = '{'
    · simp only [ha, if_pos rfl]
      rw [(lastIdxOf_eq_none_iff '}' rest).mpr hrest]
      exact ih hrest
    · simp only [if_neg ha]
      exact ih hrest

/-- The regex brace match of the source equals the spec description: the
substring running from the first `{` through the last `}`, and no candidate
at all when no such span exists. -/
theorem jsonMatch_eq_braceSpanSpec (s : List Char) :
    jsonMatch s = braceSpanSpec s := by
  induction s with
  | nil => rfl
  | cons a rest ih =>
    by_cases ha : a = '{'
    · subst ha
      simp only [jsonMatch, if_pos rfl, braceSpanSpec, firstBraceIdx, firstIdxOf,
        lastCloseIdx, lastIdxOf]
      cases hlast : lastIdxOf '}' rest with
      | some j =>
        simp only [if_pos (Nat.zero_le (j + 1)), List.drop_zero]
        rfl
      | none =>
        have hrest : '}' ∉ rest := (lastIdxOf_eq_none_iff '}' rest).mp hlast
        have hne : ('{' : Char) ≠ '}' := by decide
        rw [if_neg hne]
        exact jsonMatch_eq_none_of_no_close rest hrest
    · simp only [jsonMatch, if_neg ha, ih, braceSpanSpec, firstBraceIdx, firstIdxOf,
        if_neg ha, lastCloseIdx, lastIdxOf]
      cases hfi : firstIdxOf '{' rest with
      | none => cases hlast : lastIdxOf '}' rest <;> simp
      | some i =>
        simp only [Option.map_some']
        cases hlast : lastIdxOf '}' rest with
        | some j =>
          simp only [Nat.succ_sub_succ]
          by_cases hij : i ≤ j
          · rw [if_pos (Nat.succ_le_succ hij), if_pos hij]
            rfl
          · rw [if_neg (fun hh => hij (Nat.le_of_succ_le_succ hh)), if_neg hij]
        | none =>
          by_cases haz : a = '}' <;> simp [haz]

theorem substrIdx_eq_some_intro (pat : List Char) :
    ∀ (s : List Char) (i : Nat), pat.isPrefixOf (s.drop i) = true →
      (∀ k, k < i → pat.isPrefixOf (s.drop k) = false) → substrIdx pat s = some i := by
  intro s
  induction s with
  | nil =>
    intro i h1 h2
    rw [List.drop_nil] at h1
    simp only [substrIdx, h1]
    cases i with
    | zero => rfl
    | succ i0 =>
      have := h2 0 (Nat.succ_pos i0)
      rw [List.drop_nil] at this
      rw [h1] at this
      cases this
  | cons a rest ih =>
    intro i h1 h2
    cases i with
    | zero =>
      rw [List.drop_zero] at h1
      simp [substrIdx, h1]
    | succ i0 =>
      have h0 : pat.isPrefixOf (a :: rest) = false := by
        have := h2 0 (Nat.succ_pos i0)
        rwa [List.drop_zero] at this
      simp only [substrIdx, h0, if_neg, Bool.false_eq_true, if_false]
      rw [ih i0 h1 (fun k hk => h2 (k + 1) (Nat.succ_lt_succ hk))]
      rfl

theorem substrIdx_prefix_of_eq_some (pat : List Char) :
    ∀ (s : List Char) (i : Nat), substrIdx pat s = some i →
      pat.isPrefixOf (s.drop i) = true := by
  intro s
  induction s with
  | nil =>
    intro i h
    simp only [substrIdx] at h
    split at h
    · rename_i hp
      cases h
      simpa using hp
    · cases h
  | cons a rest ih =>
    intro i h
    simp only [substrIdx] at h
    split at h
    · rename_i hp
      cases h
      simpa using hp
    · cases hrec : substrIdx pat rest with
      | none => rw [hrec] at h; cases h
      | some i0 =>
        rw [hrec, Option.map_some'] at h
        cases h
        exact ih i0 hrec

theorem substrIdx_ne_none_of_found (pat : List Char) :
    ∀ (s : List Char) (k : Nat), pat.isPrefixOf (s.drop k) = true →
      substrIdx pat s ≠ none := by
  intro s
  induction s with
  | nil =>
    intro k h
    rw [List.drop_nil] at h
    simp [substrIdx, h]
  | cons a rest ih =>
    intro k h
    simp only [substrIdx]
    by_cases hp : pat.isPrefixOf (a :: rest) = true
    · simp [hp]
    · simp only [hp, Bool.false_eq_true, if_false]
      cases k with
      | zero => rw [List.drop_zero] at h; exact absurd h hp
      | succ k0 =>
        have := ih k0 h
        cases hrec : substrIdx pat rest with
        | none => exact absurd hrec this
        | some i0 => simp [hrec]

theorem removeThinking_of_no_open (s : List Char) (h : substrIdx openTag s = none) :
    removeThinking s = s := by
  rw [removeThinking]
  split
  · rfl
  · rename_i i heq
    rw [h] at heq
    cases heq

theorem removeThinking_of_no_close (s : List Char) (i : Nat)
    (h1 : substrIdx openTag s = some i)
    (h2 : substrIdx closeTag (s.drop (i + 10)) = none) :
    removeThinking s = s := by
  rw [removeThinking]
  split
  · rfl
  · rename_i i0 heq
    rw [h1] at heq
    cases heq
    split
    · rfl
    · rename_i j heq2
      rw [h2] at heq2
      cases heq2

theorem removeThinking_of_found (s : List Char) (i j : Nat)
    (h1 : substrIdx openTag s = some i)
    (h2 : substrIdx closeTag (s.drop (i + 10)) = some j) :
    removeThinking s = s.take i ++ removeThinking (s.drop (i + 10 + j + 11)) := by
  rw [removeThinking]
  split
  · rename_i heq
    rw [h1] at heq
    cases heq
  · rename_i i0 heq
    rw [h1] at heq
    cases heq
    split
    · rename_i heq2
      rw [h2] at heq2
      cases heq2
    · rename_i j0 heq2
      rw [h2] at heq2
      cases heq2
      rfl

def hasSubstr (pat s : List Char) : Bool :=
  (substrIdx pat s).isSome

theorem isPrefixOf_head (c : Char) (tl t : List Char)
    (h : (c :: tl).isPrefixOf t = true) : t[0]? = some c := by
  obtain ⟨r, hr⟩ := (isPrefixOf_iff _ _).mp h
  rw [← hr]
  simp

theorem no_prefix_in_left (c : Char) (tl : List Char) (pre rest : List Char)
    (hc : c ∉ pre) (k : Nat) (hk : k < pre.length) :
    (c :: tl).isPrefixOf ((pre ++ rest).drop k) = false := by
  by_contra hcon
  have hp : (c :: tl).isPrefixOf ((pre ++ rest).drop k) = true := by
    cases hb : (c :: tl).isPrefixOf ((pre ++ rest).drop k)
    · exact absurd hb hcon
    · rfl
  have h0 := isPrefixOf_head c tl _ hp
  rw [List.getElem?_drop] at h0
  rw [Nat.add_zero] at h0
  rw [List.getElem?_append_left hk] at h0
  exact hc (List.getElem?_mem h0)

theorem substrIdx_append_of_notin (c : Char) (tl : List Char) (pre tail : List Char)
    (hc : c ∉ pre) (hp : (c :: tl).isPrefixOf tail = true) :
    substrIdx (c :: tl) (pre ++ tail) = some pre.length := by
  apply substrIdx_eq_some_intro
  · rw [List.drop_left]
    exact hp
  · intro k hk
    exact no_prefix_in_left c tl pre tail hc k hk

theorem removeThinking_of_no_close_substr (s : List Char)
    (h : hasSubstr closeTag s = false) : removeThinking s = s := by
  cases ho : substrIdx openTag s with
  | none => exact removeThinking_of_no_open s ho
  | some i =>
    cases hc : substrIdx closeTag (s.drop (i + 10)) with
    | none => exact removeThinking_of_no_close s i ho hc
    | some j =>
      exfalso
      have hpref := substrIdx_prefix_of_eq_some closeTag (s.drop (i + 10)) j hc
      rw [List.drop_drop] at hpref
      have hne := substrIdx_ne_none_of_found closeTag s (i + 10 + j) hpref
      cases hx : substrIdx closeTag s with
      | none => exact hne hx
      | some k => rw [hasSubstr, hx] at h; cases h

theorem removeThinking_removes_span (pre mid post : List Char)
    (h1 : '<' ∉ pre) (h2 : '<' ∉ mid) :
    removeThinking (pre ++ openTag ++ mid ++ closeTag ++ post) =
      pre ++ removeThinking post := by
  simp only [List.append_assoc]
  have hopenShape : openTag = '<' :: "thinking>".data := rfl
  have hcloseShape : closeTag = '<' :: "/thinking>".data := rfl
  have hol : openTag.length = 10 := rfl
  have hcl : closeTag.length = 11 := rfl
  have hopen : substrIdx openTag (pre ++ (openTag ++ (mid ++ (closeTag ++ post)))) =
      some pre.length := by
    rw [hopenShape]
    apply substrIdx_append_of_notin _ _ _ _ h1
    rw [← hopenShape]
    exact (isPrefixOf_iff _ _).mpr (List.prefix_append _ _)
  have hdrop : (pre ++ (openTag ++ (mid ++ (closeTag ++ post)))).drop (pre.length + 10) =
      mid ++ (closeTag ++ post) := by
    rw [show pre ++ (openTag ++ (mid ++ (closeTag ++ post))) =
      (pre ++ openTag) ++ (mid ++ (closeTag ++ post)) from (List.append_assoc _ _ _).symm]
    apply List.drop_left'
    rw [List.length_append, hol]
  have hclose : substrIdx closeTag (mid ++ (closeTag ++ post)) = some mid.length := by
    rw [hcloseShape]
    apply substrIdx_append_of_notin _ _ _ _ h2
    rw [← hcloseShape]
    exact (isPrefixOf_iff _ _).mpr (List.prefix_append _ _)
  have hfound := removeThinking_of_found _ pre.length mid.length hopen
    (by rw [hdrop]; exact hclose)
  rw [hfound]
  congr 1
  · exact List.take_left pre _
  · congr 1
    rw [show pre ++ (openTag ++ (mid ++ (closeTag ++ post))) =
      (pre ++ (openTag ++ (mid ++ closeTag))) ++ post by simp [List.append_assoc]]
    apply List.drop_left'
    simp only [List.length_append, hol, hcl]
    omega

/-! ### Engine data model (game-engine.ts lines 6-44)

`gameStatus` is kept as a plain string: the TypeScript union type is erased
at runtime and the engine compares with `===` against the three literal
tags, assigning whatever string the parsed payload carried. -/

structure Choice where
  id : String
  text : String
  description : String
deriving DecidableEq, Repr

structure GameState where
  story : String
  history : List String
  currentStep : Int
  gameStatus : String
  gameResultDescription : Option String
  choices : Option (List Choice)
deriving DecidableEq, Repr

/-- The mutable fields of `GameEngine` that the narrative turn logic touches:
`gameState`, the private `choices` field, and whether the `BGMManager` is
playing (`play()` sets it, `stop()` clears it). -/
structure EngineState where
  gameState : GameState
  choices : List Choice
  bgmPlaying : Bool
deriving DecidableEq, Repr

/-- Fields of the object produced by `JSON.parse` on the extracted candidate,
as the engine reads them: each is optional because the parsed JSON may lack
it. -/
structure ParsedResponse where
  story : Option String
  gameStatus : Option String
  description : Option String
  choices : Option (List Choice)
deriving DecidableEq, Repr

structure TurnResult where
  updatedScene : String
  newChoices : List Choice
  error : Option String
deriving DecidableEq, Repr

structure StartResult where
  story : String
  choices : List Choice
deriving DecidableEq, Repr

def commFailMsg : String :=
  "通信に失敗しました。APIの設定を確認してもう一度選択してください。"

def gameoverRestartChoice : Choice :=
  ⟨"restart", "最初からやり直す", "ゲームを最初からやり直します"⟩

def gameclearRestartChoice : Choice :=
  ⟨"restart", "もう一度プレイする", "ゲームをもう一度プレイします"⟩

/-- game-engine.ts lines 330-336. -/
def getChoiceActionText (choices : List Choice) (choiceId : String) : String :=
  match choices.find? (fun c => c.id = choiceId) with
  | some c => c.text ++ " - " ++ c.description
  | none => choiceId ++ " を実行"

/-- Combined outcome of `sendMessage`, the extraction regexes and
`JSON.parse` inside the try block: `none` exactly when one of the three
throws (network error, missing JSON object, invalid JSON).  The model call
and `JSON.parse` are inputs; the extraction in between is the embedded
`runExtract`. -/
def turnPayload (llm : Except Unit String)
    (parse : String → Option ParsedResponse) : Option ParsedResponse :=
  match llm with
  | Except.error _ => none
  | Except.ok raw =>
    match runExtract raw with
    | none => none
    | some cand => parse cand

/-- `if (parsedResponse.story) this.gameState.story = parsedResponse.story`
(line 268): a missing or empty string field is falsy and leaves the current
value. -/
def updatedStory (cur : String) (p : ParsedResponse) : String :=
  match p.story with
  | some s => if s = "" then cur else s
  | none => cur

/-- `if (parsedResponse.gameStatus) this.gameState.gameStatus = ...`
(line 272), same truthiness rule. -/
def updatedStatus (cur : String) (p : ParsedResponse) : String :=
  match p.gameStatus with
  | some s => if s = "" then cur else s
  | none => cur

/-- Success path of `makeChoice` (game-engine.ts lines 268-307): update
story and status from the payload, then branch on the UPDATED
`this.gameState.gameStatus` to pick terminal or continuation handling,
push the story onto history, store the choices, and return the bundle. -/
def applyPayload (st : EngineState) (p : ParsedResponse) : EngineState × TurnResult :=
  let gs := st.gameState
  let story2 := updatedStory gs.story p
  let status2 := updatedStatus gs.gameStatus p
  if status2 = "gameover" then
    let gs2 : GameState :=
      { story := story2, history := gs.history ++ [story2],
        currentStep := gs.currentStep, gameStatus := status2,
        gameResultDescription := some (p.description.getD ""),
        choices := some [gameoverRestartChoice] }
    (⟨gs2, [gameoverRestartChoice], false⟩, ⟨story2, [gameoverRestartChoice], none⟩)
  else if status2 = "gameclear" then
    let gs2 : GameState :=
      { story := story2, history := gs.history ++ [story2],
        currentStep := gs.currentStep, gameStatus := status2,
        gameResultDescription := some (p.description.getD ""),
        choices := some [gameclearRestartChoice] }
    (⟨gs2, [gameclearRestartChoice], false⟩, ⟨story2, [gameclearRestartChoice], none⟩)
  else
    let chs := p.choices.getD []
    let gs2 : GameState :=
      { story := story2, history := gs.history ++ [story2],
        currentStep := gs.currentStep, gameStatus := status2,
        gameResultDescription := gs.gameResultDescription,
        choices := some chs }
    (⟨gs2, chs, st.bgmPlaying⟩, ⟨story2, chs, none⟩)

/-- game-engine.ts lines 86-126.  `bgmManager.play()` runs first; the try
block wraps the model call, the extraction and the parse; on success the
whole `gameState` object is replaced by the fresh initial state; on failure
the catch block re-throws, leaving the session state as it was before the
call — modelled by `Except.error` carrying the state at the throw. -/
def startGame (st : EngineState) (llm : Except Unit String)
    (parse : String → Option ParsedResponse) :
    Except EngineState (EngineState × StartResult) :=
  let st1 : EngineState := { st with bgmPlaying := true }
  match turnPayload llm parse with
  | none => Except.error st1
  | some p =>
    let story := p.story.getD ""
    let chs := p.choices.getD []
    Except.ok
      (⟨{ story := story, history := [story], currentStep := 0,
          gameStatus := "continue", gameResultDescription := none,
          choices := some chs }, chs, st1.bgmPlaying⟩,
       ⟨story, chs⟩)

/-- game-engine.ts lines 185-328.  `"restart"` delegates to `startGame`
outside any try/catch, so a `startGame` failure propagates.  Otherwise the
chosen action is pushed and the step incremented before the try block; the
catch block pops the action, decrements the step and returns the previous
story and choices together with the fixed error message. -/
def makeChoice (st : EngineState) (choiceId : String) (llm : Except Unit String)
    (parse : String → Option ParsedResponse) :
    Except EngineState (EngineState × TurnResult) :=
  if choiceId = "restart" then
    match startGame st llm parse with
    | Except.error st2 => Except.error st2
    | Except.ok (st2, r) => Except.ok (st2, ⟨r.story, r.choices, none⟩)
  else
    let action := getChoiceActionText st.choices choiceId
    let gs1 : GameState := { st.gameState with
      history := st.gameState.history ++ [action],
      currentStep := st.gameState.currentStep + 1 }
    let st1 : EngineState := { st with gameState := gs1 }
    match turnPayload llm parse with
    | some p => Except.ok (applyPayload st1 p)
    | none =>
      let gs2 : GameState := { gs1 with
        history := gs1.history.dropLast,
        currentStep := gs1.currentStep - 1 }
      Except.ok ({ st1 with gameState := gs2 }, ⟨gs2.story, st1.choices, some commFailMsg⟩)

/-- C5: for every raw model output, extraction removes every non-greedy
reasoning-annotation span (handling multiple occurrences, and leaving text
with absent or unmatched markers unchanged), then takes the substring from
the first `\x7b` through the last `\x7d` of the remainder as the candidate
JSON document, failing when no such brace span exists (the spec-side
`braceSpanSpec` returns `none` exactly then). -/
theorem extraction_follows_spec :
    (∀ raw : List Char, extractCandidate raw = braceSpanSpec (removeThinking raw))
    ∧ (∀ s : List Char, hasSubstr openTag s = false → removeThinking s = s)
    ∧ (∀ s : List Char, hasSubstr closeTag s = false → removeThinking s = s)
    ∧ (∀ pre mid post : List Char, '<' ∉ pre → '<' ∉ mid →
        removeThinking (pre ++ openTag ++ mid ++ closeTag ++ post) =
          pre ++ removeThinking post) := by
  refine ⟨?_, ?_, ?_, ?_⟩
  · intro raw
    exact jsonMatch_eq_braceSpanSpec (removeThinking raw)
  · intro s h
    apply removeThinking_of_no_open
    cases hx : substrIdx openTag s with
    | none => rfl
    | some i => rw [hasSubstr, hx] at h; cases h
  · intro s h
    exact removeThinking_of_no_close_substr s h
  · intro pre mid post h1 h2
    exact removeThinking_removes_span pre mid post h1 h2

theorem extraction_follows_spec_witness :
    ('<' ∉ "ab".data) ∧ ('<' ∉ "x".data) ∧
    removeThinking ("ab".data ++ openTag ++ "x".data ++ closeTag ++ "cd".data) =
      "ab".data ++ removeThinking "cd".data :=
  ⟨by decide, by decide,
    extraction_follows_spec.2.2.2 "ab".data "x".data "cd".data (by decide) (by decide)⟩

/-- C1: for every engine state and non-restart choice id, when the model
call, the JSON extraction or the parse inside `makeChoice` fails, the call
returns (rather than throwing) a bundle carrying the pre-call story, the
pre-call choices and a non-empty error message, and the engine state —
history and currentStep included — equals its pre-call value exactly. -/
theorem makeChoice_failure_rollback (st : EngineState) (choiceId : String)
    (llm : Except Unit String) (parse : String → Option ParsedResponse)
    (hid : choiceId ≠ "restart") (hfail : turnPayload llm parse = none) :
    makeChoice st choiceId llm parse =
      Except.ok (st, ⟨st.gameState.story, st.choices, some commFailMsg⟩)
    ∧ commFailMsg ≠ "" := by
  constructor
  · simp [makeChoice, if_neg hid, hfail]
  · decide

def rollbackWitnessEngine : EngineState :=
  ⟨⟨"s", ["s"], 0, "continue", none, some []⟩, [⟨"c1", "t", "d"⟩], true⟩

theorem makeChoice_failure_rollback_witness :
    (("c1" : String) ≠ "restart")
    ∧ turnPayload (Except.error ()) (fun _ => none) = none
    ∧ (makeChoice rollbackWitnessEngine "c1" (Except.error ()) (fun _ => none) =
        Except.ok (rollbackWitnessEngine,
          ⟨rollbackWitnessEngine.gameState.story, rollbackWitnessEngine.choices,
            some commFailMsg⟩)
      ∧ commFailMsg ≠ "") :=
  ⟨by decide, rfl,
    makeChoice_failure_rollback rollbackWitnessEngine "c1" (Except.error ())
      (fun _ => none) (by decide) rfl⟩

theorem applyPayload_state (st : EngineState) (p : ParsedResponse) :
    (applyPayload st p).1.gameState.history =
      st.gameState.history ++ [updatedStory st.gameState.story p]
    ∧ (applyPayload st p).1.gameState.currentStep = st.gameState.currentStep
    ∧ (applyPayload st p).1.gameState.story = updatedStory st.gameState.story p
    ∧ (applyPayload st p).1.gameState.gameStatus =
        updatedStatus st.gameState.gameStatus p := by
  by_cases h1 : updatedStatus st.gameState.gameStatus p = "gameover"
  · simp [applyPayload, h1]
  · by_cases h2 : updatedStatus st.gameState.gameStatus p = "gameclear"
    · simp [applyPayload, h1, h2]
    · simp [applyPayload, h1, h2]

/-- The engine state as it stands after the two pre-try mutations of a
non-restart `makeChoice` (push the action, increment the step). -/
def pushedState (st : EngineState) (choiceId : String) : EngineState :=
  { st with gameState := { st.gameState with
      history := st.gameState.history ++ [getChoiceActionText st.choices choiceId],
      currentStep := st.gameState.currentStep + 1 } }

theorem makeChoice_failure_eq (st : EngineState) (choiceId : String)
    (llm : Except Unit String) (parse : String → Option ParsedResponse)
    (hid : choiceId ≠ "restart") (hp : turnPayload llm parse = none) :
    makeChoice st choiceId llm parse =
      Except.ok (st, ⟨st.gameState.story, st.choices, some commFailMsg⟩) := by
  simp [makeChoice, if_neg hid, hp]

theorem makeChoice_success_eq (st : EngineState) (choiceId : String)
    (llm : Except Unit String) (parse : String → Option ParsedResponse)
    (p : ParsedResponse) (hid : choiceId ≠ "restart")
    (hp : turnPayload llm parse = some p) :
    makeChoice st choiceId llm parse =
      Except.ok (applyPayload (pushedState st choiceId) p) := by
  simp [makeChoice, if_neg hid, hp, pushedState]

theorem runExtract_braces : runExtract "{}" = some "{}" := by
  unfold runExtract extractCandidate
  rw [removeThinking_of_no_open "{}".data (by decide)]
  decide

theorem turnPayload_ok_braces (parse : String → Option ParsedResponse) :
    turnPayload (Except.ok "{}") parse = parse "{}" := by
  have h : turnPayload (Except.ok "{}") parse =
      match runExtract "{}" with
      | none => none
      | some cand => parse cand := rfl
  rw [h, runExtract_braces]

theorem startGame_success_eq (st : EngineState) (llm : Except Unit String)
    (parse : String → Option ParsedResponse) (p : ParsedResponse)
    (hp : turnPayload llm parse = some p) :
    startGame st llm parse = Except.ok
      (⟨⟨p.story.getD "", [p.story.getD ""], 0, "continue", none,
          some (p.choices.getD [])⟩, p.choices.getD [], true⟩,
        ⟨p.story.getD "", p.choices.getD []⟩) := by
  unfold startGame
  rw [hp]

/-- C2: a successful `startGame` leaves `history = [initial scene]` with
`currentStep = 0`, and every successful non-restart `makeChoice` appends
exactly the resolved action entry and the new scene entry while
incrementing `currentStep` by exactly one; hence
`history.length = 2 * currentStep + 1` holds after `startGame` and is
preserved by each successful turn. -/
theorem history_length_invariant :
    (∀ (st : EngineState) (llm : Except Unit String)
        (parse : String → Option ParsedResponse) (st2 : EngineState) (r : StartResult),
      startGame st llm parse = Except.ok (st2, r) →
      st2.gameState.history = [st2.gameState.story] ∧ st2.gameState.currentStep = 0 ∧
        (st2.gameState.history.length : Int) = 2 * st2.gameState.currentStep + 1)
    ∧ (∀ (st : EngineState) (choiceId : String) (llm : Except Unit String)
        (parse : String → Option ParsedResponse) (st2 : EngineState) (r : TurnResult),
      choiceId ≠ "restart" →
      makeChoice st choiceId llm parse = Except.ok (st2, r) →
      r.error = none →
      (st.gameState.history.length : Int) = 2 * st.gameState.currentStep + 1 →
      st2.gameState.history =
          st.gameState.history ++
            [getChoiceActionText st.choices choiceId, st2.gameState.story]
        ∧ st2.gameState.currentStep = st.gameState.currentStep + 1
        ∧ (st2.gameState.history.length : Int) = 2 * st2.gameState.currentStep + 1) := by
  constructor
  · intro st llm parse st2 r hok
    unfold startGame at hok
    cases hp : turnPayload llm parse with
    | none => rw [hp] at hok; cases hok
    | some p =>
      rw [hp] at hok
      simp only [Except.ok.injEq, Prod.mk.injEq] at hok
      obtain ⟨hst, hr⟩ := hok
      subst hst
      simp
  · intro st choiceId llm parse st2 r hid hok herr hinv
    cases hp : turnPayload llm parse with
    | none =>
      rw [makeChoice_failure_eq st choiceId llm parse hid hp] at hok
      have hpair := Except.ok.inj hok
      have hr : (⟨st.gameState.story, st.choices, some commFailMsg⟩ : TurnResult) = r :=
        congrArg Prod.snd hpair
      rw [← hr] at herr
      simp at herr
    | some p =>
      rw [makeChoice_success_eq st choiceId llm parse p hid hp] at hok
      have hpair := Except.ok.inj hok
      have hfst : (applyPayload (pushedState st choiceId) p).1 = st2 :=
        congrArg Prod.fst hpair
      obtain ⟨hh, hc, hs, _⟩ := applyPayload_state (pushedState st choiceId) p
      rw [hfst] at hh hc hs
      refine ⟨?_, ?_, ?_⟩
      · rw [hh, hs]
        simp [pushedState, List.append_assoc]
      · rw [hc]
        simp [pushedState]
      · rw [hh, hc]
        simp only [pushedState, List.length_append, List.length_singleton]
        push_cast
        omega

def invariantWitnessEngine : EngineState :=
  ⟨⟨"s0", ["s0"], 0, "continue", none, some [⟨"c1", "t", "d"⟩]⟩, [⟨"c1", "t", "d"⟩], true⟩

def invariantWitnessPost : EngineState :=
  ⟨⟨"s1", ["s0", "t - d", "s1"], 1, "continue", none, some []⟩, [], true⟩

def invariantWitnessResult : TurnResult := ⟨"s1", [], none⟩

def invariantWitnessParse : String → Option ParsedResponse :=
  fun _ => some ⟨some "s1", none, none, some []⟩

theorem invariantWitness_payload :
    turnPayload (Except.ok "{}") invariantWitnessParse =
      some ⟨some "s1", none, none, some []⟩ :=
  (turnPayload_ok_braces invariantWitnessParse).trans rfl

theorem invariantWitness_run :
    makeChoice invariantWitnessEngine "c1" (Except.ok "{}") invariantWitnessParse =
      Except.ok (invariantWitnessPost, invariantWitnessResult) := by
  rw [makeChoice_success_eq invariantWitnessEngine "c1" (Except.ok "{}")
    invariantWitnessParse ⟨some "s1", none, none, some []⟩ (by decide)
    invariantWitness_payload]
  rfl

theorem history_length_invariant_witness :
    (("c1" : String) ≠ "restart")
    ∧ makeChoice invariantWitnessEngine "c1" (Except.ok "{}") invariantWitnessParse =
        Except.ok (invariantWitnessPost, invariantWitnessResult)
    ∧ invariantWitnessResult.error = none
    ∧ ((invariantWitnessEngine.gameState.history.length : Int) =
        2 * invariantWitnessEngine.gameState.currentStep + 1)
    ∧ (invariantWitnessPost.gameState.history =
          invariantWitnessEngine.gameState.history ++
            [getChoiceActionText invariantWitnessEngine.choices "c1",
              invariantWitnessPost.gameState.story]
        ∧ invariantWitnessPost.gameState.currentStep =
            invariantWitnessEngine.gameState.currentStep + 1
        ∧ (invariantWitnessPost.gameState.history.length : Int) =
            2 * invariantWitnessPost.gameState.currentStep + 1) :=
  ⟨by decide, invariantWitness_run, rfl, by decide,
    history_length_invariant.2 invariantWitnessEngine "c1" (Except.ok "{}")
      invariantWitnessParse invariantWitnessPost invariantWitnessResult
      (by decide) invariantWitness_run rfl (by decide)⟩

def resetCounterEngine : EngineState :=
  ⟨⟨"x", ["a"], 3, "gameover", some "d", some []⟩, [], false⟩

/-- C3 counterexample: `startGame` called on an engine whose session holds a
previous game does NOT reset the state before contacting the model: when the
model call fails, the propagated state still carries the old non-empty
history instead of the reset shape the claim requires. -/
theorem startGame_no_reset_counterexample :
    startGame resetCounterEngine (Except.error ()) (fun _ => none) =
      Except.error { resetCounterEngine with bgmPlaying := true }
    ∧ ({ resetCounterEngine with bgmPlaying := true } : EngineState).gameState.history ≠ [] :=
  ⟨rfl, by decide⟩

/-- C3 (amended): `startGame` does not reset the session state before
contacting the model; it starts audio playback and, on any model-call or
extraction failure, the error propagates uncaught with the pre-call session
state (audio flag aside) unchanged and no fallback scene substituted; only
on success is the state replaced by the fresh initial-scene state. -/
theorem startGame_failure_propagates (st : EngineState) (llm : Except Unit String)
    (parse : String → Option ParsedResponse) :
    (∀ st2, startGame st llm parse = Except.error st2 →
      st2.gameState = st.gameState ∧ st2.choices = st.choices ∧ st2.bgmPlaying = true)
    ∧ (turnPayload llm parse = none →
        startGame st llm parse = Except.error { st with bgmPlaying := true })
    ∧ (∀ st2 r, startGame st llm parse = Except.ok (st2, r) →
        st2.gameState.history = [st2.gameState.story]
        ∧ st2.gameState.currentStep = 0
        ∧ st2.gameState.gameStatus = "continue") := by
  refine ⟨?_, ?_, ?_⟩
  · intro st2 h
    unfold startGame at h
    cases hp : turnPayload llm parse with
    | none =>
      rw [hp] at h
      have := Except.error.inj h
      rw [← this]
      exact ⟨rfl, rfl, rfl⟩
    | some p => rw [hp] at h; cases h
  · intro hp
    unfold startGame
    rw [hp]
  · intro st2 r h
    cases hp : turnPayload llm parse with
    | none =>
      unfold startGame at h
      rw [hp] at h
      cases h
    | some p =>
      rw [startGame_success_eq st llm parse p hp] at h
      have hfst : (⟨⟨p.story.getD "", [p.story.getD ""], 0, "continue", none,
          some (p.choices.getD [])⟩, p.choices.getD [], true⟩ : EngineState) = st2 :=
        congrArg Prod.fst (Except.ok.inj h)
      rw [← hfst]
      exact ⟨rfl, rfl, rfl⟩

theorem startGame_failure_propagates_witness :
    turnPayload (Except.error ()) (fun _ => none) = (none : Option ParsedResponse)
    ∧ startGame resetCounterEngine (Except.error ()) (fun _ => none) =
        Except.error { resetCounterEngine with bgmPlaying := true } :=
  ⟨rfl,
    (startGame_failure_propagates resetCounterEngine (Except.error ())
      (fun _ => none)).2.1 rfl⟩

def terminalChoiceEngine : EngineState :=
  ⟨⟨"old", ["old"], 0, "gameover", some "d", some []⟩, [], true⟩

def nonTerminalPayload : ParsedResponse :=
  ⟨some "ns", none, none, some [⟨"a", "t2", "d2"⟩]⟩

def c4PostState : EngineState :=
  ⟨⟨"ns", ["old", "c9 を実行", "ns"], 1, "gameover", some "",
    some [gameoverRestartChoice]⟩, [gameoverRestartChoice], false⟩

def c4Result : TurnResult := ⟨"ns", [gameoverRestartChoice], none⟩

theorem c4_payload_eq :
    turnPayload (Except.ok "{}") (fun _ => some nonTerminalPayload) =
      some nonTerminalPayload :=
  (turnPayload_ok_braces (fun _ => some nonTerminalPayload)).trans rfl

theorem c4_run :
    makeChoice terminalChoiceEngine "c9" (Except.ok "{}")
      (fun _ => some nonTerminalPayload) = Except.ok (c4PostState, c4Result) := by
  rw [makeChoice_success_eq terminalChoiceEngine "c9" (Except.ok "{}")
    (fun _ => some nonTerminalPayload) nonTerminalPayload (by decide) c4_payload_eq]
  rfl

/-- C4 counterexample: a successful non-restart `makeChoice` whose payload
is non-terminal (it carries no status at all) does NOT install the
payload's choice list when the engine was already gameover: the branch is
decided by the post-update status, so the synthetic restart choice is
installed instead. -/
theorem makeChoice_choices_counterexample :
    makeChoice terminalChoiceEngine "c9" (Except.ok "{}")
        (fun _ => some nonTerminalPayload) = Except.ok (c4PostState, c4Result)
    ∧ nonTerminalPayload.gameStatus = none
    ∧ c4Result.newChoices ≠ nonTerminalPayload.choices.getD [] :=
  ⟨c4_run, rfl, by decide⟩

/-- C4 (amended): in a successful non-restart `makeChoice` the terminal
branch is decided by the post-update status — the payload's status when it
carries a non-empty one, the pre-call status otherwise.  When that status is
gameover or gameclear the engine stores the payload's description
(defaulted to the empty string) as the result text, replaces the choices
with exactly one synthetic choice whose id is `"restart"`, and stops the
background audio; when it is neither, the choices become the payload's list
(empty when absent) and the audio is untouched; in both cases the new story
is appended to history. -/
theorem makeChoice_success_applies_payload (st : EngineState) (choiceId : String)
    (llm : Except Unit String) (parse : String → Option ParsedResponse)
    (p : ParsedResponse) (st2 : EngineState) (r : TurnResult)
    (hid : choiceId ≠ "restart") (hp : turnPayload llm parse = some p)
    (hok : makeChoice st choiceId llm parse = Except.ok (st2, r)) :
    (updatedStatus st.gameState.gameStatus p = "gameover" →
      st2.gameState.gameResultDescription = some (p.description.getD "")
      ∧ st2.choices = [gameoverRestartChoice]
      ∧ r.newChoices = [gameoverRestartChoice]
      ∧ st2.bgmPlaying = false)
    ∧ (updatedStatus st.gameState.gameStatus p = "gameclear" →
      st2.gameState.gameResultDescription = some (p.description.getD "")
      ∧ st2.choices = [gameclearRestartChoice]
      ∧ r.newChoices = [gameclearRestartChoice]
      ∧ st2.bgmPlaying = false)
    ∧ (updatedStatus st.gameState.gameStatus p ≠ "gameover" →
       updatedStatus st.gameState.gameStatus p ≠ "gameclear" →
      st2.choices = p.choices.getD []
      ∧ r.newChoices = p.choices.getD []
      ∧ st2.bgmPlaying = st.bgmPlaying)
    ∧ st2.gameState.history =
        st.gameState.history ++
          [getChoiceActionText st.choices choiceId, updatedStory st.gameState.story p]
    ∧ gameoverRestartChoice.id = "restart"
    ∧ gameclearRestartChoice.id = "restart" := by
  rw [makeChoice_success_eq st choiceId llm parse p hid hp] at hok
  have hpair := Except.ok.inj hok
  have hfst : (applyPayload (pushedState st choiceId) p).1 = st2 :=
    congrArg Prod.fst hpair
  have hsnd : (applyPayload (pushedState st choiceId) p).2 = r :=
    congrArg Prod.snd hpair
  have hpre : (pushedState st choiceId).gameState.gameStatus = st.gameState.gameStatus := rfl
  rw [← hfst, ← hsnd]
  by_cases h1 : updatedStatus st.gameState.gameStatus p = "gameover"
  · have h2 : updatedStatus st.gameState.gameStatus p ≠ "gameclear" := by
      rw [h1]; decide
    simp [applyPayload, pushedState, h1, h2, List.append_assoc,
      gameoverRestartChoice, gameclearRestartChoice]
  · by_cases h2 : updatedStatus st.gameState.gameStatus p = "gameclear"
    · simp [applyPayload, pushedState, h1, h2, List.append_assoc,
        gameoverRestartChoice, gameclearRestartChoice]
    · simp [applyPayload, pushedState, h1, h2, List.append_assoc,
        gameoverRestartChoice, gameclearRestartChoice]

theorem makeChoice_success_applies_payload_witness :
    (("c9" : String) ≠ "restart")
    ∧ turnPayload (Except.ok "{}") (fun _ => some nonTerminalPayload) =
        some nonTerminalPayload
    ∧ makeChoice terminalChoiceEngine "c9" (Except.ok "{}")
        (fun _ => some nonTerminalPayload) = Except.ok (c4PostState, c4Result)
    ∧ ((updatedStatus terminalChoiceEngine.gameState.gameStatus nonTerminalPayload =
          "gameover" →
        c4PostState.gameState.gameResultDescription =
            some (nonTerminalPayload.description.getD "")
        ∧ c4PostState.choices = [gameoverRestartChoice]
        ∧ c4Result.newChoices = [gameoverRestartChoice]
        ∧ c4PostState.bgmPlaying = false)
      ∧ (updatedStatus terminalChoiceEngine.gameState.gameStatus nonTerminalPayload =
          "gameclear" →
        c4PostState.gameState.gameResultDescription =
            some (nonTerminalPayload.description.getD "")
        ∧ c4PostState.choices = [gameclearRestartChoice]
        ∧ c4Result.newChoices = [gameclearRestartChoice]
        ∧ c4PostState.bgmPlaying = false)
      ∧ (updatedStatus terminalChoiceEngine.gameState.gameStatus nonTerminalPayload ≠
          "gameover" →
         updatedStatus terminalChoiceEngine.gameState.gameStatus nonTerminalPayload ≠
          "gameclear" →
        c4PostState.choices = nonTerminalPayload.choices.getD []
        ∧ c4Result.newChoices = nonTerminalPayload.choices.getD []
        ∧ c4PostState.bgmPlaying = terminalChoiceEngine.bgmPlaying)
      ∧ c4PostState.gameState.history =
          terminalChoiceEngine.gameState.history ++
            [getChoiceActionText terminalChoiceEngine.choices "c9",
              updatedStory terminalChoiceEngine.gameState.story nonTerminalPayload]
      ∧ gameoverRestartChoice.id = "restart"
      ∧ gameclearRestartChoice.id = "restart") :=
  ⟨by decide, c4_payload_eq, c4_run,
    makeChoice_success_applies_payload terminalChoiceEngine "c9" (Except.ok "{}")
      (fun _ => some nonTerminalPayload) nonTerminalPayload c4PostState c4Result
      (by decide) c4_payload_eq c4_run⟩

def terminalStatusEngine : EngineState :=
  ⟨⟨"s", ["s"], 1, "gameover", some "d", some []⟩, [], false⟩

def continuePayload : ParsedResponse :=
  ⟨some "s2", some "continue", none, some [⟨"a", "t", "d"⟩]⟩

def c7PostState : EngineState :=
  ⟨⟨"s2", ["s", "x を実行", "s2"], 2, "continue", some "d",
    some [⟨"a", "t", "d"⟩]⟩, [⟨"a", "t", "d"⟩], false⟩

def c7Result : TurnResult := ⟨"s2", [⟨"a", "t", "d"⟩], none⟩

theorem c7_payload_eq :
    turnPayload (Except.ok "{}") (fun _ => some continuePayload) =
      some continuePayload :=
  (turnPayload_ok_braces (fun _ => some continuePayload)).trans rfl

theorem c7_run :
    makeChoice terminalStatusEngine "x" (Except.ok "{}")
      (fun _ => some continuePayload) = Except.ok (c7PostState, c7Result) := by
  rw [makeChoice_success_eq terminalStatusEngine "x" (Except.ok "{}")
    (fun _ => some continuePayload) continuePayload (by decide) c7_payload_eq]
  rfl

/-- C7 counterexample: a non-restart `makeChoice` performed in a gameover
state, whose payload carries status continue, succeeds and leaves the engine
with status continue — the status assignment stores whatever status the
payload carries, so terminality is not preserved without a restart. -/
theorem terminal_status_counterexample :
    terminalStatusEngine.gameState.gameStatus = "gameover"
    ∧ makeChoice terminalStatusEngine "x" (Except.ok "{}")
        (fun _ => some continuePayload) = Except.ok (c7PostState, c7Result)
    ∧ c7PostState.gameState.gameStatus = "continue" :=
  ⟨rfl, c7_run, rfl⟩

/-- C7 (amended): a non-restart `makeChoice` performed in a terminal state
yields a continuing status only when the successfully extracted payload
itself carries the non-empty status continue; in particular a failed turn,
or a successful turn whose payload carries no status, an empty status or a
terminal status, never returns the engine to continuing. -/
theorem terminal_status_needs_continue_payload (st : EngineState) (choiceId : String)
    (llm : Except Unit String) (parse : String → Option ParsedResponse)
    (st2 : EngineState) (r : TurnResult)
    (hid : choiceId ≠ "restart")
    (hterm : st.gameState.gameStatus = "gameover" ∨ st.gameState.gameStatus = "gameclear")
    (hok : makeChoice st choiceId llm parse = Except.ok (st2, r))
    (hcont : st2.gameState.gameStatus = "continue") :
    ∃ p, turnPayload llm parse = some p ∧ p.gameStatus = some "continue" := by
  cases hp : turnPayload llm parse with
  | none =>
    exfalso
    rw [makeChoice_failure_eq st choiceId llm parse hid hp] at hok
    have hfst : st = st2 := congrArg Prod.fst (Except.ok.inj hok)
    rw [← hfst] at hcont
    cases hterm with
    | inl h => rw [h] at hcont; exact absurd hcont (by decide)
    | inr h => rw [h] at hcont; exact absurd hcont (by decide)
  | some p =>
    refine ⟨p, rfl, ?_⟩
    rw [makeChoice_success_eq st choiceId llm parse p hid hp] at hok
    have hfst : (applyPayload (pushedState st choiceId) p).1 = st2 :=
      congrArg Prod.fst (Except.ok.inj hok)
    obtain ⟨_, _, _, hgs⟩ := applyPayload_state (pushedState st choiceId) p
    rw [hfst, hcont] at hgs
    have hpre : (pushedState st choiceId).gameState.gameStatus = st.gameState.gameStatus := rfl
    rw [hpre] at hgs
    cases hps : p.gameStatus with
    | none =>
      exfalso
      simp only [updatedStatus, hps] at hgs
      cases hterm with
      | inl h => rw [h] at hgs; exact absurd hgs (by decide)
      | inr h => rw [h] at hgs; exact absurd hgs (by decide)
    | some s0 =>
      simp only [updatedStatus, hps] at hgs
      by_cases hs0 : s0 = ""
      · exfalso
        rw [if_pos hs0] at hgs
        cases hterm with
        | inl h => rw [h] at hgs; exact absurd hgs (by decide)
        | inr h => rw [h] at hgs; exact absurd hgs (by decide)
      · rw [if_neg hs0] at hgs
        rw [← hgs]

theorem terminal_status_needs_continue_payload_witness :
    (("x" : String) ≠ "restart")
    ∧ (terminalStatusEngine.gameState.gameStatus = "gameover"
        ∨ terminalStatusEngine.gameState.gameStatus = "gameclear")
    ∧ makeChoice terminalStatusEngine "x" (Except.ok "{}")
        (fun _ => some continuePayload) = Except.ok (c7PostState, c7Result)
    ∧ c7PostState.gameState.gameStatus = "continue"
    ∧ (∃ p, turnPayload (Except.ok "{}") (fun _ => some continuePayload) = some p
        ∧ p.gameStatus = some "continue") :=
  ⟨by decide, Or.inl rfl, c7_run, rfl,
    terminal_status_needs_continue_payload terminalStatusEngine "x" (Except.ok "{}")
      (fun _ => some continuePayload) c7PostState c7Result
      (by decide) (Or.inl rfl) c7_run rfl⟩

/-! ### Reference-level model for aliasing behavior

`getGameState` (game-engine.ts line 340-342) returns `{ ...this.gameState }`
and `loadGame` (lines 430-451) returns `this.gameState` itself, so object
identity matters for these two claims.  Objects live in an explicit heap:
arrays (`history`, `choices`) are stored in side tables and an object holds
references (indices) to them, exactly the way a JavaScript object holds
references to its nested arrays. -/

structure GObj where
  story : String
  historyRef : Nat
  currentStep : Int
  gameStatus : String
  gameResultDescription : Option String
  choicesRef : Nat
deriving DecidableEq, Repr

instance : Inhabited GObj := ⟨⟨"", 0, 0, "", none, 0⟩⟩

structure Heap where
  objs : List GObj
  strArrs : List (List String)
  choiceArrs : List (List Choice)
deriving DecidableEq, Repr

def readObj (h : Heap) (r : Nat) : GObj :=
  h.objs.getD r default

def writeObj (h : Heap) (r : Nat) (g : GObj) : Heap :=
  { h with objs := h.objs.set r g }

def readStrArr (h : Heap) (r : Nat) : List String :=
  h.strArrs.getD r []

def writeStrArr (h : Heap) (r : Nat) (v : List String) : Heap :=
  { h with strArrs := h.strArrs.set r v }

def allocObj (h : Heap) (g : GObj) : Heap × Nat :=
  ({ h with objs := h.objs ++ [g] }, h.objs.length)

/-- `getGameState` at the reference level: `return { ...this.gameState }`
allocates a new object whose fields — the nested array references
`historyRef` and `choicesRef` included — are copied from the engine's
internal object. -/
def getGameStateH (h : Heap) (engineRef : Nat) : Heap × Nat :=
  allocObj h (readObj h engineRef)

/-- `loadGame` at the reference level.  `stored` is the localStorage slot:
`none` when the key is missing, `Except.error` when `JSON.parse` throws,
`Except.ok (g, valid)` when the parse allocated the fresh object `g`, with
`valid` the verdict of the structural check on it (the check itself is
embedded value-wise as `isValidGameState` further below).  On a valid parse
the engine re-points `this.gameState` at the freshly allocated object and
returns that same reference; every other path returns `none` and leaves the
engine reference untouched. -/
def loadGameH (h : Heap) (engineRef : Nat)
    (stored : Option (Except Unit (GObj × Bool))) : Heap × Nat × Option Nat :=
  match stored with
  | none => (h, engineRef, none)
  | some (Except.error _) => (h, engineRef, none)
  | some (Except.ok (g, valid)) =>
    let h2r := allocObj h g
    if valid then (h2r.1, h2r.2, some h2r.2) else (h2r.1, engineRef, none)

theorem readObj_alloc_old (h : Heap) (g : GObj) (e : Nat) (he : e < h.objs.length) :
    readObj (allocObj h g).1 e = readObj h e := by
  simp only [readObj, allocObj, List.getD_eq_getElem?_getD]
  rw [List.getElem?_append_left he]

theorem readObj_alloc_new (h : Heap) (g : GObj) :
    readObj (allocObj h g).1 (allocObj h g).2 = g := by
  simp only [readObj, allocObj, List.getD_eq_getElem?_getD]
  rw [List.getElem?_concat_length]
  rfl

theorem readObj_write_other (h : Heap) (r e : Nat) (g : GObj) (hne : r ≠ e) :
    readObj (writeObj h r g) e = readObj h e := by
  simp only [readObj, writeObj, List.getD_eq_getElem?_getD]
  rw [List.getElem?_set_ne hne]

def snapshotHeap : Heap :=
  ⟨[⟨"s", 0, 0, "continue", none, 0⟩], [["a"]], [[]]⟩

/-- C6 counterexample: `{ ...this.gameState }` is a shallow copy — pushing
an entry onto the history array reached through the returned snapshot
changes the history the engine reads through its own internal object, so a
caller CAN mutate engine state through the returned value. -/
theorem getGameState_mutation_counterexample :
    (let hs := getGameStateH snapshotHeap 0
     let h2 := writeStrArr hs.1 (readObj hs.1 hs.2).historyRef
       (readStrArr hs.1 (readObj hs.1 hs.2).historyRef ++ ["x"])
     readStrArr h2 (readObj h2 0).historyRef) ≠
      readStrArr snapshotHeap (readObj snapshotHeap 0).historyRef := by
  decide

/-- C6 (amended): `getGameState` returns a freshly allocated object whose
top-level fields are copies — overwriting fields of the snapshot object
leaves the engine's own object untouched — but the nested history and
choices arrays are shared by reference with the engine, so mutating those
arrays through the snapshot is visible to the engine. -/
theorem getGameState_shallow_copy (h : Heap) (e : Nat) (he : e < h.objs.length) :
    (getGameStateH h e).2 ≠ e
    ∧ readObj (getGameStateH h e).1 (getGameStateH h e).2 = readObj h e
    ∧ readObj (getGameStateH h e).1 e = readObj h e
    ∧ (∀ g2, readObj (writeObj (getGameStateH h e).1 (getGameStateH h e).2 g2) e =
        readObj h e)
    ∧ (readObj (getGameStateH h e).1 (getGameStateH h e).2).historyRef =
        (readObj h e).historyRef
    ∧ (readObj (getGameStateH h e).1 (getGameStateH h e).2).choicesRef =
        (readObj h e).choicesRef := by
  have hsnap : (getGameStateH h e).2 = h.objs.length := rfl
  have hnew : readObj (getGameStateH h e).1 (getGameStateH h e).2 = readObj h e :=
    readObj_alloc_new h (readObj h e)
  have hold : readObj (getGameStateH h e).1 e = readObj h e :=
    readObj_alloc_old h (readObj h e) e he
  refine ⟨?_, hnew, hold, ?_, ?_, ?_⟩
  · rw [hsnap]; omega
  · intro g2
    rw [readObj_write_other _ _ _ _ (by rw [hsnap]; omega), hold]
  · rw [hnew]
  · rw [hnew]

def snapshotWitnessHeap : Heap :=
  ⟨[⟨"w", 0, 5, "continue", some "r", 0⟩], [["e1", "e2"]], [[]]⟩

theorem getGameState_shallow_copy_witness :
    (0 < snapshotWitnessHeap.objs.length)
    ∧ ((getGameStateH snapshotWitnessHeap 0).2 ≠ 0
      ∧ readObj (getGameStateH snapshotWitnessHeap 0).1
          (getGameStateH snapshotWitnessHeap 0).2 = readObj snapshotWitnessHeap 0
      ∧ readObj (getGameStateH snapshotWitnessHeap 0).1 0 = readObj snapshotWitnessHeap 0
      ∧ (∀ g2, readObj (writeObj (getGameStateH snapshotWitnessHeap 0).1
            (getGameStateH snapshotWitnessHeap 0).2 g2) 0 = readObj snapshotWitnessHeap 0)
      ∧ (readObj (getGameStateH snapshotWitnessHeap 0).1
          (getGameStateH snapshotWitnessHeap 0).2).historyRef =
            (readObj snapshotWitnessHeap 0).historyRef
      ∧ (readObj (getGameStateH snapshotWitnessHeap 0).1
          (getGameStateH snapshotWitnessHeap 0).2).choicesRef =
            (readObj snapshotWitnessHeap 0).choicesRef) :=
  ⟨by decide, getGameState_shallow_copy snapshotWitnessHeap 0 (by decide)⟩

/-- C10: when the stored value parses and passes the structural check,
`loadGame` is not a pure read — it re-points the engine's in-memory
`gameState` at the loaded object and returns that very reference (so the
returned value IS the engine's internal state object); on the missing-key,
parse-failure and invalid paths it returns null and the engine's in-memory
state is left unchanged. -/
theorem loadGame_overwrites_and_aliases (h : Heap) (e : Nat)
    (stored : Option (Except Unit (GObj × Bool))) (he : e < h.objs.length) :
    (∀ g, stored = some (Except.ok (g, true)) →
      (loadGameH h e stored).2.2 = some (loadGameH h e stored).2.1
      ∧ (loadGameH h e stored).2.1 ≠ e
      ∧ readObj (loadGameH h e stored).1 (loadGameH h e stored).2.1 = g)
    ∧ ((loadGameH h e stored).2.2 = none →
      (loadGameH h e stored).2.1 = e
      ∧ readObj (loadGameH h e stored).1 e = readObj h e) := by
  cases stored with
  | none =>
    exact ⟨fun g hg => (nomatch hg), fun _ => ⟨rfl, rfl⟩⟩
  | some res =>
    cases res with
    | error u =>
      exact ⟨fun g hg => (nomatch hg), fun _ => ⟨rfl, rfl⟩⟩
    | ok gv =>
      obtain ⟨g, valid⟩ := gv
      cases valid with
      | true =>
        constructor
        · intro g2 hg
          have hg2 : g = g2 := by
            simp only [Option.some.injEq, Except.ok.injEq, Prod.mk.injEq] at hg
            exact hg.1
          subst hg2
          refine ⟨rfl, ?_, ?_⟩
          · show h.objs.length ≠ e
            omega
          · exact readObj_alloc_new h g
        · intro hnone
          exact Option.noConfusion hnone
      | false =>
        constructor
        · intro g2 hg
          simp only [Option.some.injEq, Except.ok.injEq, Prod.mk.injEq] at hg
          exact absurd hg.2 (by decide)
        · intro _
          exact ⟨rfl, readObj_alloc_old h g e he⟩

def loadWitnessHeap : Heap :=
  ⟨[⟨"old", 1, 2, "gameover", some "d", 0⟩], [["h0"], ["a"]], [[]]⟩

def loadWitnessObj : GObj := ⟨"new", 0, 0, "continue", none, 0⟩

def loadWitnessStored : Option (Except Unit (GObj × Bool)) :=
  some (Except.ok (loadWitnessObj, true))

theorem loadGame_overwrites_and_aliases_witness :
    (0 < loadWitnessHeap.objs.length)
    ∧ ((∀ g, loadWitnessStored = some (Except.ok (g, true)) →
        (loadGameH loadWitnessHeap 0 loadWitnessStored).2.2 =
          some (loadGameH loadWitnessHeap 0 loadWitnessStored).2.1
        ∧ (loadGameH loadWitnessHeap 0 loadWitnessStored).2.1 ≠ 0
        ∧ readObj (loadGameH loadWitnessHeap 0 loadWitnessStored).1
            (loadGameH loadWitnessHeap 0 loadWitnessStored).2.1 = g)
      ∧ ((loadGameH loadWitnessHeap 0 loadWitnessStored).2.2 = none →
        (loadGameH loadWitnessHeap 0 loadWitnessStored).2.1 = 0
        ∧ readObj (loadGameH loadWitnessHeap 0 loadWitnessStored).1 0 =
            readObj loadWitnessHeap 0)) :=
  ⟨by decide,
    loadGame_overwrites_and_aliases loadWitnessHeap 0 loadWitnessStored (by decide)⟩

/-! ### Persisted-state validation (game-engine.ts lines 430-466)

Values coming out of `JSON.parse` are untyped at runtime; `JsVal` models
them.  `typeof v === 'object'` holds for objects, arrays and null alike, so
the source check conjoins `state !== null`; property access on the parsed
value is `getField` (`undefined` for a missing key or a non-object). -/

inductive JsVal where
  | null
  | bool (b : Bool)
  | num (n : Int)
  | str (s : String)
  | arr (elems : List JsVal)
  | obj (fields : List (String × JsVal))

def getField (v : JsVal) (k : String) : Option JsVal :=
  match v with
  | JsVal.obj fields => (fields.find? (fun f => f.1 == k)).map (·.2)
  | _ => none

def isObjectNonNull : JsVal → Bool
  | JsVal.obj _ => true
  | JsVal.arr _ => true
  | _ => false

def isStrField : Option JsVal → Bool
  | some (JsVal.str _) => true
  | _ => false

def isArrField : Option JsVal → Bool
  | some (JsVal.arr _) => true
  | _ => false

def isNumField : Option JsVal → Bool
  | some (JsVal.num _) => true
  | _ => false

def isStatusTag : Option JsVal → Bool
  | some (JsVal.str s) => s == "continue" || s == "gameover" || s == "gameclear"
  | _ => false

/-- `isValidGameState` (lines 457-466).  `Array.isArray(state.history)`
checks only that `history` is an array — its elements are not inspected. -/
def isValidGameState (v : JsVal) : Bool :=
  isObjectNonNull v && isStrField (getField v "story")
    && isArrField (getField v "history") && isNumField (getField v "currentStep")
    && isStatusTag (getField v "gameStatus")

/-- `loadGame` value-wise (lines 430-451): `stored` is the localStorage
slot — `none` when the key is missing, `Except.error` when `JSON.parse`
throws.  The raw parsed value itself becomes the result (and the new
`gameState`) exactly when it validates. -/
def loadGame (stored : Option (Except Unit JsVal)) : Option JsVal :=
  match stored with
  | none => none
  | some (Except.error _) => none
  | some (Except.ok v) => if isValidGameState v then some v else none

def historyElemsAllText (v : JsVal) : Bool :=
  match getField v "history" with
  | some (JsVal.arr elems) =>
    elems.all (fun e => match e with | JsVal.str _ => true | _ => false)
  | _ => false

def invalidHistoryState : JsVal :=
  JsVal.obj [("story", JsVal.str "s"), ("history", JsVal.arr [JsVal.num 0]),
    ("currentStep", JsVal.num 0), ("gameStatus", JsVal.str "continue")]

/-- C8 counterexample: a stored state whose history array holds a number
passes the structural check — `Array.isArray` does not look at the
elements — so `loadGame` returns it even though its history is not a
sequence of text. -/
theorem loadGame_validation_counterexample :
    loadGame (some (Except.ok invalidHistoryState)) = some invalidHistoryState
    ∧ historyElemsAllText invalidHistoryState = false :=
  ⟨rfl, rfl⟩

/-- C8 (amended): `loadGame` never throws (it is a total function on every
stored value): it returns null on missing data, on parse failure, and on
structural mismatch, and it returns a state only when story is text,
history is an ARRAY (whose elements are not validated), currentStep is a
number, and status is one of the three known tags. -/
theorem loadGame_validation :
    (loadGame none = none)
    ∧ (∀ u, loadGame (some (Except.error u)) = none)
    ∧ (∀ v, isValidGameState v = false → loadGame (some (Except.ok v)) = none)
    ∧ (∀ v w, loadGame (some (Except.ok v)) = some w →
        w = v ∧ isStrField (getField v "story") = true
        ∧ isArrField (getField v "history") = true
        ∧ isNumField (getField v "currentStep") = true
        ∧ isStatusTag (getField v "gameStatus") = true) := by
  refine ⟨rfl, fun u => rfl, ?_, ?_⟩
  · intro v hv
    simp [loadGame, hv]
  · intro v w hw
    have hload : loadGame (some (Except.ok v)) =
        if isValidGameState v then some v else none := rfl
    rw [hload] at hw
    cases hbv : isValidGameState v with
    | false =>
      rw [hbv] at hw
      simp at hw
    | true =>
      rw [hbv] at hw
      simp only [if_true, Option.some.injEq] at hw
      simp only [isValidGameState, Bool.and_eq_true] at hbv
      exact ⟨hw.symm, hbv.1.1.1.2, hbv.1.1.2, hbv.1.2, hbv.2⟩

theorem loadGame_validation_witness :
    loadGame (some (Except.ok invalidHistoryState)) = some invalidHistoryState
    ∧ (invalidHistoryState = invalidHistoryState
      ∧ isStrField (getField invalidHistoryState "story") = true
      ∧ isArrField (getField invalidHistoryState "history") = true
      ∧ isNumField (getField invalidHistoryState "currentStep") = true
      ∧ isStatusTag (getField invalidHistoryState "gameStatus") = true) :=
  ⟨rfl, loadGame_validation.2.2.2 invalidHistoryState invalidHistoryState rfl⟩

/-! ### Gemini message transformation (gemini-client.ts lines 46-63) -/

structure LMStudioMessage where
  role : String
  content : String
deriving DecidableEq, Repr

inductive GeminiRole where
  | user
  | model
deriving DecidableEq, Repr

structure GeminiContent where
  role : GeminiRole
  parts : List String
deriving DecidableEq, Repr

/-- `transformMessagesToGemini`: the `forEach` loop with its mutable
`systemPrompt` variable and output array is a left fold; a system turn
stores `content + "\n\n"` (overwriting any previous one) and emits nothing,
a user turn is emitted with the stored prompt prepended ONLY while the
output array is still empty, an assistant turn is emitted under the model
role. -/
def transformMessagesToGemini (messages : List LMStudioMessage) : List GeminiContent :=
  (messages.foldl
    (fun acc msg =>
      if msg.role == "system" then
        (msg.content ++ "\n\n", acc.2)
      else if msg.role == "user" then
        (acc.1,
          acc.2 ++ [⟨GeminiRole.user,
            [if acc.2.length = 0 then acc.1 ++ msg.content else msg.content]⟩])
      else if msg.role == "assistant" then
        (acc.1, acc.2 ++ [⟨GeminiRole.model, [msg.content]⟩])
      else acc)
    ("", [])).2

/-- C9: evaluation at the failing input, which is the conversation shape of
every `makeChoice` call (system prompt, then an assistant history entry,
then user turns).  The leading system content "S" is dropped entirely — the
first user turn comes out as "U", not as "S\n\nU" the way the claim and the
code's own comment ("prepend the system prompt to the first user message")
require — because the fold only prepends the stored prompt while the output
array is still empty, and the assistant turn has already been emitted.  On
the two-turn `startGame` shape the fold does prepend it. -/
theorem transformMessages_drops_system :
    transformMessagesToGemini
        [⟨"system", "S"⟩, ⟨"assistant", "A"⟩, ⟨"user", "U"⟩] =
      [⟨GeminiRole.model, ["A"]⟩, ⟨GeminiRole.user, ["U"]⟩]
    ∧ transformMessagesToGemini
        [⟨"system", "S"⟩, ⟨"assistant", "A"⟩, ⟨"user", "U"⟩] ≠
      [⟨GeminiRole.model, ["A"]⟩, ⟨GeminiRole.user, ["S\n\nU"]⟩]
    ∧ transformMessagesToGemini [⟨"system", "S"⟩, ⟨"user", "U"⟩] =
      [⟨GeminiRole.user, ["S\n\nU"]⟩] :=
  ⟨rfl, by decide, rfl⟩
